import Mathlib

/-!
Verification of the chunked parallel uploader of this repository
(`cloud/examples/test_fenduan.cc`, multipart variant, and
`cloud/examples/test_bingfa.cc`, single-PUT variant).

The shallow embedding below translates the `UploadFileToS3` functions of the
two drivers:

* `readChunks` embeds the read loop
  `while (file.read(buffer.data(), part_size) || file.gcount() > 0)` that
  slices the byte source into `part_size`-byte chunks (final chunk shorter);
* `submitList` embeds the `part_number` / `part_index` counter that pairs
  each chunk with its part index (base 1 in the multipart variant, base 0 in
  the single-PUT variant);
* `windowTrace` embeds the sliding window over the `futures` vector
  (`if (futures.size() >= thread_count) { futures.front().get();
  futures.erase(futures.begin()); } futures.push_back(...)`) plus the final
  drain loop `for (auto& future : futures) future.get();`;
* `sortParts` embeds the `std::sort` of `completed_parts` by `PartNumber`
  before `CompleteMultipartUpload`;
* `runFenduan` / `runBingfa` embed the whole control flow of the two
  `UploadFileToS3` functions over an environment recording the outcome of each
  S3 call.  Network calls are asynchronous in the source; the call list below
  records which calls are issued (submission order), and the point at which a
  part failure surfaces follows the FIFO `.get()` discipline of the source:
  the earliest-submitted failing part's exception is the one rethrown, after
  the window has admitted parts up to index `f + thread_count - 1`.
-/

/-- A byte of the source is modelled as a `Nat` (the `char` of the buffer). -/
abbrev Byte := Nat

/-- The read loop of `UploadFileToS3`
(`while (file.read(buffer.data(), part_size) || file.gcount() > 0)`):
each iteration takes the next `P` bytes of the source (fewer for the final
short read, where `gcount() > 0` keeps the body running once more).
With `P = 0` the C++ loop would never terminate (`read(_, 0)` extracts
nothing and leaves the stream good), so the model returns `[]` under the
spec's precondition `partSize > 0`. -/
def readChunks (P : Nat) (src : List Byte) : List (List Byte) :=
  if h : P = 0 ∨ src = [] then []
  else src.take P :: readChunks P (src.drop P)
termination_by src.length
decreasing_by
  push_neg at h
  have h1 : 0 < P := Nat.pos_of_ne_zero h.1
  have h2 : 0 < src.length := List.length_pos.mpr h.2
  simp only [List.length_drop]
  omega

/-- The part-counter pairing of `UploadFileToS3`: each chunk is submitted
with the current counter value, which then increments
(`futures.push_back(std::async(..., part_number, buffer)); part_number++;`).
The multipart variant starts the counter at 1, the single-PUT variant at 0. -/
def submitList (base : Nat) : List (List Byte) → List (Nat × List Byte)
  | [] => []
  | c :: cs => (base, c) :: submitList (base + 1) cs

/-- An event on the `futures` vector of the submission loop: `submit pn`
models `futures.push_back(std::async(..., pn, buffer))`, `awaitTask pn`
models `futures.front().get(); futures.erase(futures.begin())` (or a `get`
of the drain loop) on the future of part `pn`. -/
inductive Ev where
  | submit (pn : Nat)
  | awaitTask (pn : Nat)
deriving DecidableEq

/-- The drain loop `for (auto& future : futures) future.get();`:
awaits every outstanding future front to back.  Each trace entry is
`(futures before, event, futures after)`. -/
def drainTrace : List Nat → List (List Nat × Ev × List Nat)
  | [] => []
  | q :: rest => ((q :: rest), Ev.awaitTask q, rest) :: drainTrace rest

/-- The sliding-window management of the submission loop
(`if (futures.size() >= thread_count) { futures.front().get();
futures.erase(futures.begin()); } futures.push_back(...)`), followed by the
drain loop.  `ps` are the part numbers still to submit, `outst` the part
numbers of the outstanding futures (front first).  The `outst = []` branch
under a full window is unreachable for `thread_count ≥ 1` (in C++ it would
be `futures.front()` on an empty vector, undefined behaviour for
`thread_count = 0`). -/
def windowTrace (tc : Nat) : List Nat → List Nat → List (List Nat × Ev × List Nat)
  | [], outst => drainTrace outst
  | p :: ps, outst =>
    if tc ≤ outst.length then
      match outst with
      | [] => (([], Ev.submit p, [p])) :: windowTrace tc ps [p]
      | q :: outst' =>
        ((q :: outst'), Ev.awaitTask q, outst') ::
        ((outst', Ev.submit p, outst' ++ [p])) :: windowTrace tc ps (outst' ++ [p])
    else
      ((outst, Ev.submit p, outst ++ [p])) :: windowTrace tc ps (outst ++ [p])

/-- `Aws::S3::Model::CompletedPart`: the `PartNumber` / `ETag` pair pushed
into `completed_parts` by a successful `upload_part` task. -/
structure CompletedPart where
  partNumber : Nat
  eTag : String
deriving DecidableEq

/-- The comparator of the `std::sort` call on `completed_parts`:
`a.GetPartNumber() < b.GetPartNumber()`.  The sort itself is modelled by an
insertion sort under the reflexive closure of the comparator; on the distinct
part numbers produced by the uploader every comparison sort returns the same,
unique result. -/
def partLE (a b : CompletedPart) : Prop := a.partNumber ≤ b.partNumber

instance : DecidableRel partLE := fun a b => Nat.decLe a.partNumber b.partNumber

instance : IsTotal CompletedPart partLE := ⟨fun a b => Nat.le_total a.partNumber b.partNumber⟩

instance : IsTrans CompletedPart partLE := ⟨fun _ _ _ h1 h2 => Nat.le_trans h1 h2⟩

/-- The `std::sort(completed_parts.begin(), completed_parts.end(), cmp)` call
executed before `CompleteMultipartUpload`. -/
def sortParts (l : List CompletedPart) : List CompletedPart :=
  List.insertionSort partLE l

/-- Environment of the multipart driver: the outcomes the external world
hands to each call of `UploadFileToS3` in `test_fenduan.cc`
(`CreateMultipartUpload`, the `std::ifstream` open, each part's `UploadPart`,
`CompleteMultipartUpload`). -/
structure S3Env where
  createOk : Bool
  createErrMsg : String
  fileOk : Bool
  partOk : Nat → Bool
  partETag : Nat → String
  partErrMsg : Nat → String
  completeOk : Bool

/-- An S3 call issued by the multipart driver. -/
inductive S3Call where
  | createMultipart
  | uploadPart (pn : Nat) (body : List Byte)
  | completeMultipart (manifest : List CompletedPart)
deriving DecidableEq

/-- How `UploadFileToS3` of `test_fenduan.cc` exits:
`createFailReturn` is the early `return` after a failed initiate;
`fileOpenThrow` is `throw std::runtime_error("Failed to open file: ...")`;
`partFailThrow` is the `upload_part` exception rethrown by a `future.get()`
and propagating out of the function; `finished` means the function ran to its
final `Aws::ShutdownAPI(options)` (also when `CompleteMultipartUpload` failed,
which is only printed). -/
inductive FenduanResult where
  | createFailReturn (errMsg : String)
  | fileOpenThrow
  | partFailThrow (errMsg : String)
  | finished (completeOk : Bool)
deriving DecidableEq

/-- Trace of one call of the multipart `UploadFileToS3`: the S3 calls issued
(in submission order; the part uploads themselves run concurrently), the exit,
and whether `Aws::ShutdownAPI` was reached. -/
structure FenduanTrace where
  calls : List S3Call
  result : FenduanResult
  shutdownCalled : Bool
deriving DecidableEq

/-- `UploadFileToS3` of `test_fenduan.cc`.  A failed initiate returns early;
a failed file open throws; otherwise the read loop submits chunk `i` as part
`i+1`.  If some part fails, the exception of the earliest-submitted failing
part `f` is the one rethrown by the FIFO `future.get()` discipline, after the
window admitted parts up to number `f + thread_count - 1`; every admitted
task still performs its `UploadPart` call (the future destructors join them),
no `CompleteMultipartUpload` is issued and the exception leaves the function.
If no part fails, `completed_parts` (a permutation of the parts — arrival
order is scheduling-dependent, and `sortParts` yields the same manifest for
every permutation) is sorted and `CompleteMultipartUpload` is issued. -/
def runFenduan (env : S3Env) (src : List Byte) (P tc : Nat) : FenduanTrace :=
  if !env.createOk then
    ⟨[S3Call.createMultipart], FenduanResult.createFailReturn env.createErrMsg, false⟩
  else if !env.fileOk then
    ⟨[S3Call.createMultipart], FenduanResult.fileOpenThrow, false⟩
  else
    let subs := submitList 1 (readChunks P src)
    match subs.find? (fun s => !env.partOk s.fst) with
    | some s =>
        let submitted := subs.filter (fun t => t.fst < s.fst + tc)
        ⟨S3Call.createMultipart :: submitted.map (fun t => S3Call.uploadPart t.fst t.snd),
         FenduanResult.partFailThrow ("Failed to upload part: " ++ env.partErrMsg s.fst),
         false⟩
    | none =>
        let manifest := sortParts (subs.map (fun t => ⟨t.fst, env.partETag t.fst⟩))
        ⟨S3Call.createMultipart :: subs.map (fun t => S3Call.uploadPart t.fst t.snd)
           ++ [S3Call.completeMultipart manifest],
         FenduanResult.finished env.completeOk,
         true⟩

/-- Environment of the single-PUT driver (`test_bingfa.cc`): the outcome of
the file open and of each per-part `PutObject`. -/
structure PutEnv where
  fileOk : Bool
  putOk : Nat → Bool
  putErrMsg : Nat → String

/-- An S3 call issued by the single-PUT driver. -/
inductive PutCall where
  | putObject (key : String) (body : List Byte)
deriving DecidableEq

/-- How `UploadFileToS3` of `test_bingfa.cc` exits. -/
inductive BingfaResult where
  | fileOpenThrow
  | partFailThrow (errMsg : String)
  | finished
deriving DecidableEq

/-- Trace of one call of the single-PUT `UploadFileToS3`. -/
structure BingfaTrace where
  calls : List PutCall
  result : BingfaResult
  shutdownCalled : Bool
deriving DecidableEq

/-- `UploadFileToS3` of `test_bingfa.cc`: chunk `i` is stored under key
`object_key + "_part_" + std::to_string(i)` with 0-based indices; there is no
initiate and no finalize call.  Failure handling follows the same FIFO
`future.get()` discipline as the multipart driver, but the exception message
does include the failing index. -/
def runBingfa (env : PutEnv) (objectKey : String) (src : List Byte) (P tc : Nat) :
    BingfaTrace :=
  if !env.fileOk then
    ⟨[], BingfaResult.fileOpenThrow, false⟩
  else
    let subs := submitList 0 (readChunks P src)
    match subs.find? (fun s => !env.putOk s.fst) with
    | some s =>
        let submitted := subs.filter (fun t => t.fst < s.fst + tc)
        ⟨submitted.map
           (fun t => PutCall.putObject (objectKey ++ "_part_" ++ toString t.fst) t.snd),
         BingfaResult.partFailThrow
           ("Failed to upload part " ++ toString s.fst ++ ": " ++ env.putErrMsg s.fst),
         false⟩
    | none =>
        ⟨subs.map
           (fun t => PutCall.putObject (objectKey ++ "_part_" ++ toString t.fst) t.snd),
         BingfaResult.finished, true⟩

/-- `true` exactly on the exits that reach the end of the function body
(and hence the `Aws::ShutdownAPI(options)` after the closing brace). -/
def fenduanReachedEnd : FenduanResult → Bool
  | FenduanResult.finished _ => true
  | _ => false

/-- The `completed_parts` the multipart driver accumulates when every part
upload succeeds, listed in submission order (the shared vector receives them
in scheduling-dependent arrival order, i.e. in some permutation of this
list). -/
def completedPartsOf (env : S3Env) (src : List Byte) (P : Nat) : List CompletedPart :=
  (submitList 1 (readChunks P src)).map (fun t => ⟨t.fst, env.partETag t.fst⟩)

instance : IsAntisymm CompletedPart (fun a b => a.partNumber < b.partNumber) :=
  ⟨fun _ _ h1 h2 => absurd h1 (Nat.lt_asymm h2)⟩

/-- Environment in which every S3 call succeeds. -/
def envAllOk : S3Env := ⟨true, "", true, fun _ => true, fun _ => "etag", fun _ => "", true⟩

/-- Environment in which `CreateMultipartUpload` fails. -/
def envCreateFail : S3Env :=
  ⟨false, "access denied", true, fun _ => true, fun _ => "", fun _ => "", true⟩

/-- Environment in which exactly part 2 fails, with transport message
`boom`. -/
def envFail2 : S3Env := ⟨true, "", true, fun p => p != 2, fun _ => "etag", fun _ => "boom", true⟩

/-- Environment in which exactly part 3 fails, with transport message
`boom`. -/
def envFail3 : S3Env := ⟨true, "", true, fun p => p != 3, fun _ => "etag", fun _ => "boom", true⟩

/-- Single-PUT environment in which every call succeeds. -/
def putEnvAllOk : PutEnv := ⟨true, fun _ => true, fun _ => ""⟩

/-- Single-PUT environment in which exactly the part of index 2 fails. -/
def putEnvFail2 : PutEnv := ⟨true, fun p => p != 2, fun _ => "boom"⟩

theorem readChunks_nil (P : Nat) : readChunks P [] = [] := by
  rw [readChunks]
  simp

theorem readChunks_zero (src : List Byte) : readChunks 0 src = [] := by
  rw [readChunks]
  simp

theorem readChunks_cons (P : Nat) (src : List Byte) (hP : P ≠ 0) (hs : src ≠ []) :
    readChunks P src = src.take P :: readChunks P (src.drop P) := by
  rw [readChunks]
  simp [hP, hs]

/-- Concatenating the chunks of the read loop restores the source. -/
theorem readChunks_flatten (P : Nat) (hP : 0 < P) :
    ∀ src : List Byte, (readChunks P src).flatten = src := by
  intro src
  induction src using readChunks.induct P with
  | case1 src h =>
      rcases h with h | h
      · omega
      · subst h
        simp [readChunks_nil]
  | case2 src h ih =>
      push_neg at h
      rw [readChunks_cons P src h.1 h.2, List.flatten_cons, ih, List.take_append_drop]

/-- Chunk `i` of the read loop holds bytes `[i*P, i*P + P)` of the source
(clipped at the end of the source). -/
theorem readChunks_getD (P : Nat) (hP : 0 < P) :
    ∀ (src : List Byte) (i : Nat), i < (readChunks P src).length →
      (readChunks P src).getD i [] = (src.drop (i * P)).take P := by
  intro src
  induction src using readChunks.induct P with
  | case1 src h =>
      rcases h with h | h
      · omega
      · subst h
        intro i hi
        simp [readChunks_nil] at hi
  | case2 src h ih =>
      push_neg at h
      intro i hi
      rw [readChunks_cons P src h.1 h.2] at hi ⊢
      cases i with
      | zero => simp
      | succ j =>
          simp only [List.getD_cons_succ]
          rw [ih j (by simpa using hi)]
          rw [List.drop_drop]
          congr 1
          ring_nf

/-- The read loop produces `⌈L/P⌉` chunks. -/
theorem readChunks_length (P : Nat) (hP : 0 < P) :
    ∀ src : List Byte, (readChunks P src).length = (src.length + P - 1) / P := by
  intro src
  induction src using readChunks.induct P with
  | case1 src h =>
      rcases h with h | h
      · omega
      · subst h
        rw [readChunks_nil]
        simp only [List.length_nil]
        exact (Nat.div_eq_of_lt (by omega)).symm
  | case2 src h ih =>
      push_neg at h
      rw [readChunks_cons P src h.1 h.2]
      have hL : 0 < src.length := List.length_pos.mpr h.2
      simp only [List.length_cons, ih, List.length_drop]
      rcases Nat.lt_or_ge src.length P with hlt | hge
      · have h0 : src.length - P = 0 := by omega
        rw [h0]
        have h1 : (0 + P - 1) / P = 0 := Nat.div_eq_of_lt (by omega)
        have h2 : (src.length + P - 1) / P = 1 :=
          Nat.div_eq_of_lt_le (by omega) (by omega)
        omega
      · have h3 : src.length - P + P - 1 = src.length - 1 := by omega
        rw [h3]
        have h4 : src.length + P - 1 = (src.length - 1) + P := by omega
        rw [h4, Nat.add_div_right _ hP]

/-- Arithmetic helper: `⌈L/P⌉ * P ≥ L`. -/
theorem ceil_mul_ge (L P : Nat) (hP : 0 < P) : L ≤ ((L + P - 1) / P) * P := by
  rw [Nat.mul_comm]
  have hdm := Nat.div_add_mod (L + P - 1) P
  have hmod : (L + P - 1) % P < P := Nat.mod_lt _ hP
  generalize P * ((L + P - 1) / P) = m at hdm ⊢
  omega

/-- The length of chunk `i` is `min P (L - i*P)`. -/
theorem readChunks_getD_length (P : Nat) (hP : 0 < P) (src : List Byte) (i : Nat)
    (hi : i < (readChunks P src).length) :
    ((readChunks P src).getD i []).length = min P (src.length - i * P) := by
  rw [readChunks_getD P hP src i hi]
  simp [List.length_take, List.length_drop]

/-- Every chunk except the last has length exactly `P`. -/
theorem readChunks_part_length (P : Nat) (hP : 0 < P) (src : List Byte) (i : Nat)
    (hi : i + 1 < (readChunks P src).length) :
    ((readChunks P src).getD i []).length = P := by
  have hk := readChunks_length P hP src
  have hiL : i < (readChunks P src).length := by omega
  rw [readChunks_getD_length P hP src i hiL]
  have h2 : i + 2 ≤ (src.length + P - 1) / P := by omega
  have h3 : (i + 2) * P ≤ src.length + P - 1 := (Nat.le_div_iff_mul_le hP).mp h2
  have h4 : (i + 2) * P = i * P + P + P := by ring
  rw [h4] at h3
  generalize i * P = m at h3 ⊢
  omega

/-- The last chunk has length `L - P * (parts - 1)`. -/
theorem readChunks_last_length (P : Nat) (hP : 0 < P) (src : List Byte) (hs : src ≠ []) :
    ((readChunks P src).getD ((readChunks P src).length - 1) []).length
      = src.length - P * ((readChunks P src).length - 1) := by
  have hk := readChunks_length P hP src
  have hL0 : 0 < src.length := List.length_pos.mpr hs
  have hkpos : 0 < (readChunks P src).length := by
    rw [hk]
    have h1 : 1 ≤ (src.length + P - 1) / P :=
      (Nat.le_div_iff_mul_le hP).mpr (by omega)
    omega
  have hik : (readChunks P src).length - 1 < (readChunks P src).length := by omega
  rw [readChunks_getD_length P hP src _ hik]
  have hub : src.length ≤ ((src.length + P - 1) / P) * P := ceil_mul_ge _ _ hP
  rw [← hk] at hub
  have h5 : (readChunks P src).length - 1 + 1 = (readChunks P src).length :=
    Nat.succ_pred_eq_of_pos hkpos
  have hexp : (readChunks P src).length * P
      = ((readChunks P src).length - 1) * P + P := by
    conv_lhs => rw [← h5]
    ring
  rw [hexp] at hub
  rw [Nat.mul_comm P ((readChunks P src).length - 1)]
  generalize ((readChunks P src).length - 1) * P = m at hub ⊢
  omega

theorem submitList_map_fst (b : Nat) :
    ∀ cs : List (List Byte), (submitList b cs).map Prod.fst = List.range' b cs.length := by
  intro cs
  induction cs generalizing b with
  | nil => rfl
  | cons c cs ih =>
      simp [submitList, List.range'_succ, ih (b + 1)]

theorem submitList_map_snd (b : Nat) :
    ∀ cs : List (List Byte), (submitList b cs).map Prod.snd = cs := by
  intro cs
  induction cs generalizing b with
  | nil => rfl
  | cons c cs ih =>
      simp [submitList, ih (b + 1)]

theorem submitList_length (b : Nat) (cs : List (List Byte)) :
    (submitList b cs).length = cs.length := by
  have h := submitList_map_fst b cs
  have := congrArg List.length h
  simpa using this

theorem windowTrace_nil_eq (tc : Nat) (outst : List Nat) :
    windowTrace tc [] outst = drainTrace outst := rfl

theorem windowTrace_cons_eq (tc p : Nat) (ps outst : List Nat) :
    windowTrace tc (p :: ps) outst =
      if tc ≤ outst.length then
        match outst with
        | [] => (([], Ev.submit p, [p])) :: windowTrace tc ps [p]
        | q :: outst' =>
          ((q :: outst'), Ev.awaitTask q, outst') ::
          ((outst', Ev.submit p, outst' ++ [p])) :: windowTrace tc ps (outst' ++ [p])
      else
        ((outst, Ev.submit p, outst ++ [p])) :: windowTrace tc ps (outst ++ [p]) := rfl

theorem drainTrace_bound (tc : Nat) :
    ∀ outst : List Nat, outst.length ≤ tc →
      ∀ e ∈ drainTrace outst, e.1.length ≤ tc ∧ e.2.2.length ≤ tc := by
  intro outst
  induction outst with
  | nil => intro _ e he; cases he
  | cons q rest ih =>
      intro hlen e he
      simp only [drainTrace, List.mem_cons] at he
      rcases he with he | he
      · subst he
        simp only [List.length_cons] at hlen ⊢
        exact ⟨hlen, by omega⟩
      · have hlen2 : rest.length ≤ tc := by
          simp only [List.length_cons] at hlen
          omega
        exact ih hlen2 e he

theorem windowTrace_bound (tc : Nat) (htc : 1 ≤ tc) :
    ∀ (ps outst : List Nat), outst.length ≤ tc →
      ∀ e ∈ windowTrace tc ps outst, e.1.length ≤ tc ∧ e.2.2.length ≤ tc := by
  intro ps
  induction ps with
  | nil => intro outst hlen e he; exact drainTrace_bound tc outst hlen e he
  | cons p ps ih =>
      intro outst hlen e he
      rw [windowTrace_cons_eq] at he
      by_cases hfull : tc ≤ outst.length
      · rw [if_pos hfull] at he
        cases outst with
        | nil =>
            simp only [List.length_nil] at hfull
            omega
        | cons q outst' =>
            simp only [List.length_cons] at hlen hfull
            simp only [List.mem_cons] at he
            rcases he with he | he | he
            · subst he
              exact ⟨by simpa using hlen, by simp only []; omega⟩
            · subst he
              refine ⟨by simp only []; omega, ?_⟩
              simp only [List.length_append, List.length_singleton]
              omega
            · refine ih (outst' ++ [p]) ?_ e he
              simp only [List.length_append, List.length_singleton]
              omega
      · rw [if_neg hfull] at he
        push_neg at hfull
        simp only [List.mem_cons] at he
        rcases he with he | he
        · subst he
          refine ⟨by show outst.length ≤ tc; omega, ?_⟩
          show (outst ++ [p]).length ≤ tc
          simp only [List.length_append, List.length_singleton]
          omega
        · refine ih (outst ++ [p]) ?_ e he
          simp only [List.length_append, List.length_singleton]
          omega

theorem drainTrace_no_submit :
    ∀ outst : List Nat, ∀ e ∈ drainTrace outst, ∃ q, e.2.1 = Ev.awaitTask q := by
  intro outst
  induction outst with
  | nil => intro e he; cases he
  | cons q rest ih =>
      intro e he
      simp only [drainTrace, List.mem_cons] at he
      rcases he with he | he
      · subst he
        exact ⟨q, rfl⟩
      · exact ih e he

theorem drainTrace_fifo :
    ∀ outst : List Nat, List.Pairwise (· < ·) outst →
      ∀ e ∈ drainTrace outst,
        ∀ q, e.2.1 = Ev.awaitTask q → e.1 = q :: e.2.2 ∧ ∀ r ∈ e.1, q ≤ r := by
  intro outst
  induction outst with
  | nil => intro _ e he; cases he
  | cons q0 rest ih =>
      intro hp e he
      rcases List.pairwise_cons.mp hp with ⟨hq0, hrest⟩
      simp only [drainTrace, List.mem_cons] at he
      rcases he with he | he
      · subst he
        intro q hq
        have hq' : q0 = q := by simpa using hq
        subst hq'
        refine ⟨rfl, ?_⟩
        intro r hr
        rcases List.mem_cons.mp hr with hr | hr
        · exact le_of_eq hr.symm
        · exact le_of_lt (hq0 r hr)
      · exact ih hrest e he

theorem windowTrace_fifo (tc : Nat) (htc : 1 ≤ tc) :
    ∀ (ps outst : List Nat), outst.length ≤ tc →
      List.Pairwise (· < ·) (outst ++ ps) →
      ∀ e ∈ windowTrace tc ps outst,
        (∀ q, e.2.1 = Ev.awaitTask q → e.1 = q :: e.2.2 ∧ ∀ r ∈ e.1, q ≤ r) ∧
        (∀ p, e.2.1 = Ev.submit p → e.1.length < tc) := by
  intro ps
  induction ps with
  | nil =>
      intro outst hlen hp e he
      rw [windowTrace_nil_eq] at he
      rw [List.append_nil] at hp
      refine ⟨drainTrace_fifo outst hp e he, ?_⟩
      intro p hpe
      rcases drainTrace_no_submit outst e he with ⟨q, hq⟩
      rw [hq] at hpe
      simp at hpe
  | cons p ps ih =>
      intro outst hlen hp e he
      rw [windowTrace_cons_eq] at he
      by_cases hfull : tc ≤ outst.length
      · rw [if_pos hfull] at he
        cases outst with
        | nil =>
            simp only [List.length_nil] at hfull
            omega
        | cons q0 outst' =>
            simp only [List.mem_cons] at he
            rw [List.cons_append] at hp
            have hp' : List.Pairwise (· < ·) (outst' ++ p :: ps) :=
              (List.pairwise_cons.mp hp).2
            have hq0lt : ∀ r ∈ outst' ++ p :: ps, q0 < r :=
              (List.pairwise_cons.mp hp).1
            rcases he with he | he | he
            · subst he
              constructor
              · intro q hq
                have hq' : q0 = q := by simpa using hq
                subst hq'
                refine ⟨rfl, ?_⟩
                intro r hr
                rcases List.mem_cons.mp hr with hr | hr
                · exact le_of_eq hr.symm
                · exact le_of_lt (hq0lt r (List.mem_append_left _ hr))
              · intro p' hp'e
                simp at hp'e
            · subst he
              constructor
              · intro q hq
                simp at hq
              · intro p' hp'e
                show outst'.length < tc
                simp only [List.length_cons] at hlen
                omega
            · refine ih (outst' ++ [p]) ?_ ?_ e he
              · simp only [List.length_append, List.length_singleton]
                simp only [List.length_cons] at hlen
                omega
              · rw [List.append_assoc, List.singleton_append]
                exact hp'
      · rw [if_neg hfull] at he
        push_neg at hfull
        simp only [List.mem_cons] at he
        rcases he with he | he
        · subst he
          constructor
          · intro q hq
            simp at hq
          · intro p' hp'e
            show outst.length < tc
            exact hfull
        · refine ih (outst ++ [p]) ?_ ?_ e he
          · simp only [List.length_append, List.length_singleton]
            omega
          · rw [List.append_assoc, List.singleton_append]
            exact hp

theorem sortParts_sorted (l : List CompletedPart) :
    List.Pairwise partLE (sortParts l) :=
  List.sorted_insertionSort partLE l

theorem sortParts_perm (l : List CompletedPart) : (sortParts l).Perm l :=
  List.perm_insertionSort partLE l

/-- Sorting a list of completed parts with pairwise-distinct part numbers
yields a strictly ascending manifest. -/
theorem sortParts_strict (l : List CompletedPart)
    (hnd : (l.map CompletedPart.partNumber).Nodup) :
    List.Pairwise (fun a b => a.partNumber < b.partNumber) (sortParts l) := by
  have hs : List.Pairwise partLE (sortParts l) := sortParts_sorted l
  have hperm : ((sortParts l).map CompletedPart.partNumber).Perm
      (l.map CompletedPart.partNumber) := (sortParts_perm l).map _
  have hnd' : ((sortParts l).map CompletedPart.partNumber).Nodup :=
    hperm.nodup_iff.mpr hnd
  have hne : List.Pairwise (fun a b => a.partNumber ≠ b.partNumber) (sortParts l) :=
    List.pairwise_map.mp hnd'
  exact (hs.and hne).imp (fun h => lt_of_le_of_ne h.1 h.2)

theorem completedPartsOf_map_pn (env : S3Env) (src : List Byte) (P : Nat) :
    (completedPartsOf env src P).map CompletedPart.partNumber
      = List.range' 1 (readChunks P src).length := by
  unfold completedPartsOf
  rw [List.map_map]
  exact submitList_map_fst 1 (readChunks P src)

theorem completedPartsOf_nodup (env : S3Env) (src : List Byte) (P : Nat) :
    ((completedPartsOf env src P).map CompletedPart.partNumber).Nodup := by
  rw [completedPartsOf_map_pn]
  exact List.nodup_range' 1 _

/-- On completed parts with pairwise-distinct part numbers the sort result
does not depend on the arrival order. -/
theorem sortParts_perm_eq (l l' : List CompletedPart) (h : l.Perm l')
    (hnd : (l.map CompletedPart.partNumber).Nodup) : sortParts l = sortParts l' := by
  have hnd' : (l'.map CompletedPart.partNumber).Nodup :=
    ((h.map CompletedPart.partNumber).nodup_iff).mp hnd
  exact List.eq_of_perm_of_sorted
    ((sortParts_perm l).trans (h.trans (sortParts_perm l').symm))
    (sortParts_strict l hnd) (sortParts_strict l' hnd')

/-- Claim C1: for every byte source and every `partSize P > 0` the
concatenation of the part buffers produced by the uploader's read loop,
ordered by their part index, equals the original byte source byte-for-byte;
the part at 0-based position `i` holds bytes `[i*P, min((i+1)*P, L))` of the
source (`(src.drop (i*P)).take P`). -/
theorem claim1_parts_concat_equals_source (src : List Byte) (P : Nat) (hP : 0 < P) :
    (readChunks P src).flatten = src ∧
    ∀ i, i < (readChunks P src).length →
      (readChunks P src).getD i [] = (src.drop (i * P)).take P :=
  ⟨readChunks_flatten P hP src, fun i hi => readChunks_getD P hP src i hi⟩

theorem claim1_witness :
    0 < 3 ∧
    ((readChunks 3 [10, 20, 30, 40, 50, 60, 70]).flatten = [10, 20, 30, 40, 50, 60, 70] ∧
     ∀ i, i < (readChunks 3 [10, 20, 30, 40, 50, 60, 70]).length →
       (readChunks 3 [10, 20, 30, 40, 50, 60, 70]).getD i []
         = (([10, 20, 30, 40, 50, 60, 70] : List Byte).drop (i * 3)).take 3) :=
  ⟨by decide, claim1_parts_concat_equals_source [10, 20, 30, 40, 50, 60, 70] 3 (by decide)⟩

/-- Claim C2: a source of length `L > 0` with `partSize P > 0` produces
exactly `⌈L/P⌉` parts, every part except the last has length `P`, and the
last part has length `L - P*(parts-1)`.  (The `L=10, P=4` scenario with
parts of lengths 4, 4, 2 and consecutive indices 1, 2, 3 is checked in the
witness.) -/
theorem claim2_part_count_and_lengths (src : List Byte) (P : Nat)
    (hP : 0 < P) (hs : src ≠ []) :
    (readChunks P src).length = (src.length + P - 1) / P ∧
    (∀ i, i + 1 < (readChunks P src).length →
      ((readChunks P src).getD i []).length = P) ∧
    ((readChunks P src).getD ((readChunks P src).length - 1) []).length
      = src.length - P * ((readChunks P src).length - 1) :=
  ⟨readChunks_length P hP src, fun i hi => readChunks_part_length P hP src i hi,
   readChunks_last_length P hP src hs⟩

unseal readChunks in
theorem claim2_witness :
    0 < 4 ∧ ([0, 1, 2, 3, 4, 5, 6, 7, 8, 9] : List Byte) ≠ [] ∧
    ((readChunks 4 [0, 1, 2, 3, 4, 5, 6, 7, 8, 9]).length
        = (([0, 1, 2, 3, 4, 5, 6, 7, 8, 9] : List Byte).length + 4 - 1) / 4 ∧
     (∀ i, i + 1 < (readChunks 4 [0, 1, 2, 3, 4, 5, 6, 7, 8, 9]).length →
        ((readChunks 4 [0, 1, 2, 3, 4, 5, 6, 7, 8, 9]).getD i []).length = 4) ∧
     ((readChunks 4 [0, 1, 2, 3, 4, 5, 6, 7, 8, 9]).getD
          ((readChunks 4 [0, 1, 2, 3, 4, 5, 6, 7, 8, 9]).length - 1) []).length
        = ([0, 1, 2, 3, 4, 5, 6, 7, 8, 9] : List Byte).length
            - 4 * ((readChunks 4 [0, 1, 2, 3, 4, 5, 6, 7, 8, 9]).length - 1)) ∧
    (readChunks 4 [0, 1, 2, 3, 4, 5, 6, 7, 8, 9]).map List.length = [4, 4, 2] ∧
    (submitList 1 (readChunks 4 [0, 1, 2, 3, 4, 5, 6, 7, 8, 9])).map Prod.fst = [1, 2, 3] :=
  ⟨by decide, by decide,
   claim2_part_count_and_lengths [0, 1, 2, 3, 4, 5, 6, 7, 8, 9] 4 (by decide) (by decide),
   by decide, by decide⟩

/-- Claim C7: the sequence of part indices submitted by the uploader is
contiguous, starts at base 1 in the multipart variant and at base 0 in the
single-PUT variant, and increases by exactly 1 per part in the order of
increasing stream offset (the i-th submitted buffer is the i-th chunk of the
source). -/
theorem claim7_indices_contiguous (src : List Byte) (P : Nat) :
    ((submitList 1 (readChunks P src)).map Prod.fst
        = List.range' 1 (readChunks P src).length) ∧
    ((submitList 1 (readChunks P src)).map Prod.snd = readChunks P src) ∧
    ((submitList 0 (readChunks P src)).map Prod.fst
        = List.range' 0 (readChunks P src).length) ∧
    ((submitList 0 (readChunks P src)).map Prod.snd = readChunks P src) :=
  ⟨submitList_map_fst 1 _, submitList_map_snd 1 _,
   submitList_map_fst 0 _, submitList_map_snd 0 _⟩

/-- Claim C5: for every `thread_count ≥ 1`, at every step of the submission
loop (including the drain loop) the number of outstanding part-upload
futures never exceeds `thread_count` — both before and after each window
event. -/
theorem claim5_window_bounded (src : List Byte) (P tc b : Nat) (htc : 1 ≤ tc) :
    ∀ e ∈ windowTrace tc ((submitList b (readChunks P src)).map Prod.fst) [],
      e.1.length ≤ tc ∧ e.2.2.length ≤ tc :=
  windowTrace_bound tc htc _ [] (by simp)

theorem claim5_witness :
    1 ≤ 2 ∧
    ∀ e ∈ windowTrace 2 ((submitList 1 (readChunks 1 [7, 7, 7, 7, 7])).map Prod.fst) [],
      e.1.length ≤ 2 ∧ e.2.2.length ≤ 2 :=
  ⟨by decide, claim5_window_bounded [7, 7, 7, 7, 7] 1 2 1 (by decide)⟩

/-- Claim C6: whenever the submission loop removes an outstanding task it
blocks on and removes the front future, which carries the least part number
among the outstanding ones — the task submitted earliest (FIFO
back-pressure); and a new task is only admitted while the window holds
strictly fewer than `thread_count` tasks. -/
theorem claim6_fifo_eviction (src : List Byte) (P tc b : Nat) (htc : 1 ≤ tc) :
    ∀ e ∈ windowTrace tc ((submitList b (readChunks P src)).map Prod.fst) [],
      (∀ q, e.2.1 = Ev.awaitTask q → e.1 = q :: e.2.2 ∧ ∀ r ∈ e.1, q ≤ r) ∧
      (∀ p, e.2.1 = Ev.submit p → e.1.length < tc) :=
  windowTrace_fifo tc htc _ [] (by simp)
    (by
      rw [List.nil_append, submitList_map_fst]
      exact List.pairwise_lt_range' b _)

theorem claim6_witness :
    1 ≤ 2 ∧
    ∀ e ∈ windowTrace 2 ((submitList 1 (readChunks 1 [7, 7, 7, 7, 7])).map Prod.fst) [],
      (∀ q, e.2.1 = Ev.awaitTask q → e.1 = q :: e.2.2 ∧ ∀ r ∈ e.1, q ≤ r) ∧
      (∀ p, e.2.1 = Ev.submit p → e.1.length < 2) :=
  ⟨by decide, claim6_fifo_eviction [7, 7, 7, 7, 7] 1 2 1 (by decide)⟩

/-- Claim C3: in the multipart variant, for every order in which the
asynchronous part uploads happen to land in `completed_parts` (any
permutation `arrival` of the completed parts), the manifest passed to
`CompleteMultipartUpload` is `sortParts arrival`, and it is sorted strictly
ascending by part number. -/
theorem claim3_manifest_sorted (env : S3Env) (src : List Byte) (P tc : Nat)
    (arrival : List CompletedPart)
    (h1 : env.createOk = true) (h2 : env.fileOk = true)
    (h3 : (submitList 1 (readChunks P src)).find? (fun s => !env.partOk s.fst) = none)
    (hperm : arrival.Perm (completedPartsOf env src P)) :
    S3Call.completeMultipart (sortParts arrival) ∈ (runFenduan env src P tc).calls ∧
    List.Pairwise (fun a b => a.partNumber < b.partNumber) (sortParts arrival) := by
  have hnd := completedPartsOf_nodup env src P
  have hndA : (arrival.map CompletedPart.partNumber).Nodup :=
    ((hperm.map CompletedPart.partNumber).nodup_iff).mpr hnd
  have heq : sortParts arrival = sortParts (completedPartsOf env src P) :=
    sortParts_perm_eq _ _ hperm hndA
  constructor
  · rw [heq]
    simp [runFenduan, h1, h2, h3, completedPartsOf]
  · exact sortParts_strict arrival hndA

unseal readChunks in
theorem claim3_witness :
    envAllOk.createOk = true ∧ envAllOk.fileOk = true ∧
    ((submitList 1 (readChunks 1 [5, 6, 7])).find?
        (fun s => !envAllOk.partOk s.fst) = none) ∧
    ([⟨3, "etag"⟩, ⟨1, "etag"⟩, ⟨2, "etag"⟩] : List CompletedPart).Perm
        (completedPartsOf envAllOk [5, 6, 7] 1) ∧
    (S3Call.completeMultipart (sortParts [⟨3, "etag"⟩, ⟨1, "etag"⟩, ⟨2, "etag"⟩])
        ∈ (runFenduan envAllOk [5, 6, 7] 1 2).calls ∧
     List.Pairwise (fun a b => a.partNumber < b.partNumber)
        (sortParts [⟨3, "etag"⟩, ⟨1, "etag"⟩, ⟨2, "etag"⟩])) :=
  ⟨by decide, by decide, by decide, by decide,
   claim3_manifest_sorted envAllOk [5, 6, 7] 1 2 _ (by decide) (by decide)
     (by decide) (by decide)⟩

unseal readChunks in
/-- Claim C4 as stated is false on the multipart variant: the exception
thrown by its `upload_part` is
`"Failed to upload part: " + ...GetMessage()`, which does not contain the
failing part's number.  Concretely, with five one-byte parts and transport
message `boom`, a failure of part 2 and a failure of part 3 surface the very
same error, so the error does not identify part 2 (the spec's scenario
"a failure on part 2 of 5 surfaces an error identifying part 2"). -/
theorem claim4_counterexample :
    (runFenduan envFail2 [1, 1, 1, 1, 1] 1 1).result
        = FenduanResult.partFailThrow "Failed to upload part: boom" ∧
    (runFenduan envFail3 [1, 1, 1, 1, 1] 1 1).result
        = FenduanResult.partFailThrow "Failed to upload part: boom" := by
  constructor <;> decide

/-- Claim C4, amended: when some part upload fails, the operation terminates
with an error carrying the underlying transport error message — in the
single-PUT variant the message also carries the failing part's index, but in
the multipart variant it does not — and no finalize
(`CompleteMultipartUpload`) call is made. -/
theorem claim4_amended (env : S3Env) (env' : PutEnv) (key : String)
    (src src' : List Byte) (P P' tc tc' : Nat) (s s' : Nat × List Byte)
    (h1 : env.createOk = true) (h2 : env.fileOk = true)
    (hf : (submitList 1 (readChunks P src)).find? (fun t => !env.partOk t.fst) = some s)
    (h2' : env'.fileOk = true)
    (hf' : (submitList 0 (readChunks P' src')).find? (fun t => !env'.putOk t.fst) = some s') :
    (runFenduan env src P tc).result
        = FenduanResult.partFailThrow ("Failed to upload part: " ++ env.partErrMsg s.fst) ∧
    (∀ m, S3Call.completeMultipart m ∉ (runFenduan env src P tc).calls) ∧
    (runBingfa env' key src' P' tc').result
        = BingfaResult.partFailThrow
            ("Failed to upload part " ++ toString s'.fst ++ ": " ++ env'.putErrMsg s'.fst) := by
  refine ⟨?_, ?_, ?_⟩
  · simp [runFenduan, h1, h2, hf]
  · intro m
    simp [runFenduan, h1, h2, hf]
  · simp [runBingfa, h2', hf']

unseal readChunks in
theorem claim4_witness :
    envFail2.createOk = true ∧ envFail2.fileOk = true ∧
    ((submitList 1 (readChunks 1 [1, 1, 1, 1, 1])).find?
        (fun t => !envFail2.partOk t.fst) = some (2, [1])) ∧
    putEnvFail2.fileOk = true ∧
    ((submitList 0 (readChunks 1 [9, 9, 9, 9, 9])).find?
        (fun t => !putEnvFail2.putOk t.fst) = some (2, [9])) ∧
    ((runFenduan envFail2 [1, 1, 1, 1, 1] 1 1).result
        = FenduanResult.partFailThrow ("Failed to upload part: " ++ envFail2.partErrMsg 2) ∧
     (∀ m, S3Call.completeMultipart m ∉ (runFenduan envFail2 [1, 1, 1, 1, 1] 1 1).calls) ∧
     (runBingfa putEnvFail2 "k" [9, 9, 9, 9, 9] 1 1).result
        = BingfaResult.partFailThrow
            ("Failed to upload part " ++ toString 2 ++ ": " ++ putEnvFail2.putErrMsg 2)) :=
  ⟨by decide, by decide, by decide, by decide, by decide,
   claim4_amended envFail2 putEnvFail2 "k" [1, 1, 1, 1, 1] [9, 9, 9, 9, 9] 1 1 1 1
     (2, [1]) (2, [9]) (by decide) (by decide) (by decide) (by decide) (by decide)⟩

/-- Claim C8: if `CreateMultipartUpload` fails, the multipart variant
returns early having issued only the initiate call: no `UploadPart` and no
`CompleteMultipartUpload` call occurs in that execution. -/
theorem claim8_create_fail_aborts (env : S3Env) (src : List Byte) (P tc : Nat)
    (h : env.createOk = false) :
    (runFenduan env src P tc).calls = [S3Call.createMultipart] ∧
    (runFenduan env src P tc).result = FenduanResult.createFailReturn env.createErrMsg ∧
    (∀ pn body, S3Call.uploadPart pn body ∉ (runFenduan env src P tc).calls) ∧
    (∀ m, S3Call.completeMultipart m ∉ (runFenduan env src P tc).calls) := by
  refine ⟨?_, ?_, ?_, ?_⟩ <;> simp [runFenduan, h]

theorem claim8_witness :
    envCreateFail.createOk = false ∧
    ((runFenduan envCreateFail [1, 2] 1 1).calls = [S3Call.createMultipart] ∧
     (runFenduan envCreateFail [1, 2] 1 1).result
        = FenduanResult.createFailReturn envCreateFail.createErrMsg ∧
     (∀ pn body, S3Call.uploadPart pn body ∉ (runFenduan envCreateFail [1, 2] 1 1).calls) ∧
     (∀ m, S3Call.completeMultipart m ∉ (runFenduan envCreateFail [1, 2] 1 1).calls)) :=
  ⟨by decide, claim8_create_fail_aborts envCreateFail [1, 2] 1 1 (by decide)⟩

/-- Claim C9: on an empty byte source both uploaders raise no error and
submit zero part uploads; the multipart variant still runs to its finalize
call, issuing `CompleteMultipartUpload` with an empty manifest. -/
theorem claim9_empty_source (env : S3Env) (env' : PutEnv) (key : String)
    (P P' tc tc' : Nat)
    (h1 : env.createOk = true) (h2 : env.fileOk = true) (h2' : env'.fileOk = true) :
    (runFenduan env [] P tc).calls
        = [S3Call.createMultipart, S3Call.completeMultipart []] ∧
    (runFenduan env [] P tc).result = FenduanResult.finished env.completeOk ∧
    (runBingfa env' key [] P' tc').calls = [] ∧
    (runBingfa env' key [] P' tc').result = BingfaResult.finished := by
  have hc : readChunks P [] = [] := readChunks_nil P
  have hc' : readChunks P' [] = [] := readChunks_nil P'
  refine ⟨?_, ?_, ?_, ?_⟩ <;>
    simp [runFenduan, runBingfa, h1, h2, h2', hc, hc', submitList, sortParts,
      List.insertionSort]

theorem claim9_witness :
    envAllOk.createOk = true ∧ envAllOk.fileOk = true ∧ putEnvAllOk.fileOk = true ∧
    ((runFenduan envAllOk [] 4 2).calls
        = [S3Call.createMultipart, S3Call.completeMultipart []] ∧
     (runFenduan envAllOk [] 4 2).result = FenduanResult.finished envAllOk.completeOk ∧
     (runBingfa putEnvAllOk "k" [] 4 2).calls = [] ∧
     (runBingfa putEnvAllOk "k" [] 4 2).result = BingfaResult.finished) :=
  ⟨by decide, by decide, by decide,
   claim9_empty_source envAllOk putEnvAllOk "k" 4 4 2 2 (by decide) (by decide) (by decide)⟩

unseal readChunks in
/-- Claim C10 as stated is false: the initiation-failure early return is not
the only exit of `UploadFileToS3` that skips `Aws::ShutdownAPI`.  A part
failure makes the function exit by exception propagation, and on that path
too `ShutdownAPI` is never reached (the trace below ends in `partFailThrow`,
not `createFailReturn`, with `shutdownCalled = false`). -/
theorem claim10_counterexample :
    (runFenduan envFail2 [9, 9, 9, 9, 9] 1 2).result
        = FenduanResult.partFailThrow "Failed to upload part: boom" ∧
    (runFenduan envFail2 [9, 9, 9, 9, 9] 1 2).shutdownCalled = false := by
  constructor <;> decide

/-- Claim C10, amended: `Aws::ShutdownAPI` is reached exactly on the
executions that run to the end of the function body (the `finished` exits,
including a failed `CompleteMultipartUpload`, which is only printed); the
initiation-failure early return and both exception exits (file-open failure,
part failure) leave the process-wide SDK state initialized. -/
theorem claim10_amended (env : S3Env) (src : List Byte) (P tc : Nat) :
    (runFenduan env src P tc).shutdownCalled
      = fenduanReachedEnd (runFenduan env src P tc).result := by
  cases hc : env.createOk with
  | false => simp [runFenduan, hc, fenduanReachedEnd]
  | true =>
    cases hfo : env.fileOk with
    | false => simp [runFenduan, hc, hfo, fenduanReachedEnd]
    | true =>
      cases hfind : (submitList 1 (readChunks P src)).find? (fun s => !env.partOk s.fst) with
      | none => simp [runFenduan, hc, hfo, hfind, fenduanReachedEnd]
      | some s => simp [runFenduan, hc, hfo, hfind, fenduanReachedEnd]
